import Mathlib

/-!
Shallow embedding of `src/search/hybridRetriever.ts` (class `HybridRetriever`)
from the obsidian-copilot repository, together with theorems settling the
spec claims about the hybrid retrieval algorithm.

External collaborators (the vault title resolver, the vector index, the
embedding provider, the language model, and the `[[...]]` title extractor)
are modelled as fields of an `Env` record.  Fallible collaborators return
`Except Err`; a JavaScript `throw` is `Except.error` and `await f()` inside
a `try` block corresponds to matching on the `Except` value.  Floating point
scores are modelled as rationals; they are only carried, never computed on,
by the code under verification.  Calls to the language model and to the
embedding provider are recorded in an event trace so that claims about
"no model call occurs" and "the vector search is invoked with the original
query" can be stated.
-/

namespace HybridRetriever

/-- Errors thrown by collaborators; the retriever only propagates them. -/
abbrev Err := String

/-- Model of the language-model response object: it may or may not carry a
textual `content` field (`"content" in rewrittenQueryObject`). -/
structure LLMResponse where
  content : Option String
  deriving Repr, DecidableEq

/-- Model of `hit.document` as consumed by the retriever: the record stored
in the Orama index (content, metadata spread, and the named fields copied
into the Document metadata). -/
structure OramaDocRec where
  content : String
  metadata : List (String × String)
  path : String
  mtime : Nat
  ctime : Nat
  title : String
  id : String
  embeddingModel : String
  tags : List String
  extension : String
  created_at : Nat
  nchars : Nat
  deriving Repr, DecidableEq

/-- Model of a search hit: a score paired with the stored document record. -/
structure Hit where
  score : Rat
  document : OramaDocRec
  deriving Repr, DecidableEq

/-- Metadata of a constructed `Document`: the spread of the stored record's
metadata plus the named fields set in `hybridRetriever.ts` lines 115-128. -/
structure Metadata where
  extra : List (String × String)
  score : Rat
  path : String
  mtime : Nat
  ctime : Nat
  title : String
  id : String
  embeddingModel : String
  tags : List String
  extension : String
  created_at : Nat
  nchars : Nat
  deriving Repr, DecidableEq

/-- Model of a LangChain `Document` as built by the retriever. -/
structure Document where
  pageContent : String
  metadata : Metadata
  deriving Repr, DecidableEq

/-- The `new Document({pageContent: hit.document.content, metadata: {...}})`
construction performed identically at lines 111-130 and 163-182. -/
def hitToDoc (hit : Hit) : Document :=
  { pageContent := hit.document.content
    metadata :=
    { extra := hit.document.metadata
      score := hit.score
      path := hit.document.path
      mtime := hit.document.mtime
      ctime := hit.document.ctime
      title := hit.document.title
      id := hit.document.id
      embeddingModel := hit.document.embeddingModel
      tags := hit.document.tags
      extension := hit.document.extension
      created_at := hit.document.created_at
      nchars := hit.document.nchars } }

/-- The `options` record of the constructor. -/
structure RetrievalOpts where
  minSimilarityScore : Rat
  maxK : Nat
  deriving Repr, DecidableEq

/-- Observable calls to the two generative collaborators. -/
inductive Event where
  | llmCall (prompt : String)
  | embedCall (query : String)
  deriving Repr, DecidableEq

/-- External collaborators of the retriever.  `extractNoteTitles` and
`getNoteFileFromTitle` come from `@/utils`, `getDocsByPath` from
`@/vectorDBManager`, `llmInvoke` is `this.llm.invoke`, `embedQuery` is
`this.embeddingsInstance.embedQuery`, and `search` is Orama's vector
search (vector, similarity threshold, limit).  `getNoteFileFromTitle`
yields the resolved file's path, or `none` when the title resolves to no
file (`noteFile` null). -/
structure Env where
  extractNoteTitles : String → List String
  getNoteFileFromTitle : String → Except Err (Option String)
  getDocsByPath : String → Except Err (Option (List Hit))
  llmInvoke : String → Except Err (Option LLMResponse)
  embedQuery : String → Except Err (List Rat)
  search : List Rat → Rat → Nat → List Hit

/-- The fixed HyDE prompt template of the constructor, formatted with the
question (`this.queryRewritePrompt.format` substitutes the query for the
question placeholder). -/
def promptTemplate (question : String) : String :=
  "Please write a passage to answer the question. If you don't know the answer, just make up a passage. \nQuestion: "
    ++ question ++ "\nPassage:"

/-- `rewriteQuery` (lines 87-103): invoke the model on the formatted prompt;
return its `content` when present; on a missing content field or a thrown
error, fall back to the original query.  The returned trace records the
model call. -/
def rewriteQuery (env : Env) (query : String) : String × List Event :=
  match env.llmInvoke (promptTemplate query) with
  | .error _ => (query, [Event.llmCall (promptTemplate query)])
  | .ok none => (query, [Event.llmCall (promptTemplate query)])
  | .ok (some rewrittenQueryObject) =>
    match rewrittenQueryObject.content with
    | some c => (c, [Event.llmCall (promptTemplate query)])
    | none => (query, [Event.llmCall (promptTemplate query)])

/-- `getExplicitChunks` (lines 105-135): for each title, resolve it to a file
(`noteFile?.path ?? ""` on a miss), look up the hits for that path, and
append the mapped documents.  A thrown error in either collaborator call
propagates (there is no try/catch in the loop). -/
def getExplicitChunks (env : Env) : List String → Except Err (List Document)
  | [] => .ok []
  | noteTitle :: rest =>
    match env.getNoteFileFromTitle noteTitle with
    | .error e => .error e
    | .ok noteFile =>
      match env.getDocsByPath (noteFile.getD "") with
      | .error e => .error e
      | .ok hits =>
        match getExplicitChunks env rest with
        | .error e => .error e
        | .ok restChunks =>
          match hits with
          | some hs => .ok (hs.map hitToDoc ++ restChunks)
          | none => .ok restChunks

/-- `getOramaChunks` (lines 137-184): embed the query (an embedding failure
is logged with the query attached and rethrown), then run the vector search
with the configured similarity threshold and limit and map the hits to
documents.  The trace records the embedding call with its exact argument. -/
def getOramaChunks (env : Env) (opts : RetrievalOpts) (query : String) :
    Except Err (List Document) × List Event :=
  match env.embedQuery query with
  | .error e => (.error e, [Event.embedCall query])
  | .ok queryVector =>
    (.ok ((env.search queryVector opts.minSimilarityScore opts.maxK).map hitToDoc),
      [Event.embedCall query])

/-- Lines 42-47: the query sent to the vector search; the original query when
HyDE is bypassed (`config?.runName === "no_hyde"`), otherwise the rewrite. -/
def hydeQuery (env : Env) (query : String) (noHyde : Bool) : String × List Event :=
  if noHyde then (query, []) else rewriteQuery env query

/-- Lines 55-61: append the vector chunks to the combined list, skipping any
chunk whose `pageContent` is already in the `uniqueChunks` set (modelled as
the list of contents seen so far). -/
def mergeChunks (uniqueChunks : List String) (combinedChunks : List Document) :
    List Document → List Document
  | [] => combinedChunks
  | chunk :: restChunks =>
    if chunk.pageContent ∈ uniqueChunks then
      mergeChunks uniqueChunks combinedChunks restChunks
    else
      mergeChunks (chunk.pageContent :: uniqueChunks) (combinedChunks ++ [chunk]) restChunks

/-- `getRelevantDocuments` (lines 37-85): extract titles, fetch explicit
chunks, rewrite the query unless bypassed, fetch vector chunks, merge with
content dedup, and truncate to `maxK`.  The second component is the trace of
collaborator calls to the language model and the embedding provider. -/
def getRelevantDocuments (env : Env) (opts : RetrievalOpts) (query : String)
    (noHyde : Bool) : Except Err (List Document) × List Event :=
  match getExplicitChunks env (env.extractNoteTitles query) with
  | .error e => (.error e, [])
  | .ok explicitChunks =>
    match getOramaChunks env opts (hydeQuery env query noHyde).1 with
    | (.error e, ev2) => (.error e, (hydeQuery env query noHyde).2 ++ ev2)
    | (.ok oramaChunks, ev2) =>
      (.ok ((mergeChunks (explicitChunks.map Document.pageContent) explicitChunks
          oramaChunks).take opts.maxK),
        (hydeQuery env query noHyde).2 ++ ev2)

/-- The language-model call fails or its response lacks a content field
(the conditions under which `rewriteQuery` falls back). -/
def llmRewriteFails (env : Env) (query : String) : Prop :=
  match env.llmInvoke (promptTemplate query) with
  | .error _ => True
  | .ok none => True
  | .ok (some r) => r.content = none

/-- Fetching passages for one title fails: either title resolution throws,
or it succeeds and the index lookup for the resulting path throws. -/
def titleFetchFails (env : Env) (noteTitle : String) (e : Err) : Prop :=
  match env.getNoteFileFromTitle noteTitle with
  | .error e0 => e0 = e
  | .ok noteFile => env.getDocsByPath (noteFile.getD "") = .error e

/-- A hit record with given content and path and fixed remaining fields,
used for concrete instantiations. -/
def mkHit (c p : String) : Hit :=
  { score := 1
    document :=
    { content := c
      metadata := []
      path := p
      mtime := 0
      ctime := 0
      title := p
      id := p ++ c
      embeddingModel := "m"
      tags := []
      extension := "md"
      created_at := 0
      nchars := 0 } }

/-- The merge loop appends to `combinedChunks` exactly the chunks whose
content is new: the appended part is a subsequence of the input, avoids every
content in `uniqueChunks`, has pairwise-distinct contents, and contains the
content of every input chunk whose content was not already seen. -/
theorem mergeChunks_spec (oc : List Document) :
    ∀ (u : List String) (acc : List Document),
      ∃ t, mergeChunks u acc oc = acc ++ t ∧
        t.Sublist oc ∧
        (∀ d ∈ t, d.pageContent ∉ u) ∧
        (t.map Document.pageContent).Nodup ∧
        (∀ d ∈ oc, d.pageContent ∈ u ∨ d.pageContent ∈ t.map Document.pageContent) := by
  induction oc with
  | nil =>
    intro u acc
    exact ⟨[], by simp [mergeChunks], by simp, by simp, by simp, by simp⟩
  | cons c cs ih =>
    intro u acc
    by_cases hc : c.pageContent ∈ u
    · obtain ⟨t, ht, hsub, havoid, hnd, hcover⟩ := ih u acc
      refine ⟨t, by simp [mergeChunks, hc, ht], hsub.cons c, havoid, hnd, ?_⟩
      intro d hd
      rcases List.mem_cons.mp hd with h | h
      · exact Or.inl (h ▸ hc)
      · exact hcover d h
    · obtain ⟨t, ht, hsub, havoid, hnd, hcover⟩ := ih (c.pageContent :: u) (acc ++ [c])
      refine ⟨c :: t, ?_, hsub.cons₂ c, ?_, ?_, ?_⟩
      · simp [mergeChunks, hc, ht]
      · intro d hd
        rcases List.mem_cons.mp hd with h | h
        · exact h ▸ hc
        · exact fun hm => havoid d h (List.mem_cons_of_mem _ hm)
      · refine List.nodup_cons.mpr ⟨?_, hnd⟩
        intro hm
        obtain ⟨d, hd, hde⟩ := List.mem_map.mp hm
        exact havoid d hd (hde ▸ List.mem_cons_self _ _)
      · intro d hd
        rcases List.mem_cons.mp hd with h | h
        · exact Or.inr (by simp [h])
        · rcases hcover d h with h2 | h2
          · rcases List.mem_cons.mp h2 with h3 | h3
            · exact Or.inr (by simp [h3])
            · exact Or.inl h3
          · exact Or.inr (by simp [h2])

/-- Fetching explicit chunks for a concatenated title list is the
concatenation of the per-part fetches, with errors propagating from the
first failing title. -/
theorem getExplicitChunks_append (env : Env) (l1 l2 : List String) :
    getExplicitChunks env (l1 ++ l2) =
      match getExplicitChunks env l1 with
      | .error e => .error e
      | .ok c1 =>
        match getExplicitChunks env l2 with
        | .error e => .error e
        | .ok c2 => .ok (c1 ++ c2) := by
  induction l1 with
  | nil =>
    cases h : getExplicitChunks env l2 with
    | error e => simp [getExplicitChunks, h]
    | ok c2 => simp [getExplicitChunks, h]
  | cons t ts ih =>
    cases hr : env.getNoteFileFromTitle t with
    | error e => simp [getExplicitChunks, hr]
    | ok noteFile =>
      cases hd : env.getDocsByPath (noteFile.getD "") with
      | error e => simp [getExplicitChunks, hr, hd]
      | ok hits =>
        cases h1 : getExplicitChunks env ts with
        | error e =>
          rw [h1] at ih
          cases hits with
          | none => simp [getExplicitChunks, hr, hd, ih, h1]
          | some hs => simp [getExplicitChunks, hr, hd, ih, h1]
        | ok c1 =>
          rw [h1] at ih
          cases h2 : getExplicitChunks env l2 with
          | error e =>
            rw [h2] at ih
            cases hits with
            | none => simp [getExplicitChunks, hr, hd, ih, h1, h2]
            | some hs => simp [getExplicitChunks, hr, hd, ih, h1, h2]
          | ok c2 =>
            rw [h2] at ih
            cases hits with
            | none => simp [getExplicitChunks, hr, hd, ih, h1, h2]
            | some hs => simp [getExplicitChunks, hr, hd, ih, h1, h2]

/-- Explicit-chunk fetching depends only on the title resolver and the
index lookup. -/
theorem getExplicitChunks_congr (env env' : Env)
    (h1 : env'.getNoteFileFromTitle = env.getNoteFileFromTitle)
    (h2 : env'.getDocsByPath = env.getDocsByPath) :
    ∀ l, getExplicitChunks env' l = getExplicitChunks env l := by
  intro l
  induction l with
  | nil => simp [getExplicitChunks]
  | cons t ts ih => simp [getExplicitChunks, h1, h2, ih]

/-- A minimal environment: no titles extracted, language model down,
embedding succeeds, vector search returns one hit. -/
def envMini : Env :=
  { extractNoteTitles := fun _ => []
    getNoteFileFromTitle := fun _ => .ok none
    getDocsByPath := fun _ => .ok none
    llmInvoke := fun _ => .error "llm down"
    embedQuery := fun _ => .ok [1]
    search := fun _ _ _ => [mkHit "v1" "pv"] }

/-- C2: for every query and every configuration, the sequence returned by
`retrieve` (when it returns one) has length at most `maxK`. -/
theorem c2_length_le_maxK (env : Env) (opts : RetrievalOpts) (query : String)
    (noHyde : Bool) (res : List Document)
    (h : (getRelevantDocuments env opts query noHyde).1 = .ok res) :
    res.length ≤ opts.maxK := by
  unfold getRelevantDocuments at h
  cases hec : getExplicitChunks env (env.extractNoteTitles query) with
  | error e => rw [hec] at h; simp at h
  | ok ec =>
    rw [hec] at h
    rcases hoc : getOramaChunks env opts (hydeQuery env query noHyde).1 with ⟨r, ev⟩
    cases r with
    | error e => rw [hoc] at h; simp at h
    | ok oc =>
      rw [hoc] at h
      simp at h
      rw [← h]
      exact List.length_take_le _ _

/-- Witness for C2 at the minimal environment with `maxK = 5`. -/
theorem c2_length_le_maxK_witness :
    List.length [hitToDoc (mkHit "v1" "pv")] ≤ (5 : Nat) :=
  c2_length_le_maxK envMini ⟨0, 5⟩ "q" true [hitToDoc (mkHit "v1" "pv")] rfl

/-- C3: the merger, seeded with the explicit chunks and their contents,
appends exactly the vector chunks with fresh content: the appended part is a
subsequence of the vector chunks in order, no appended chunk's content
equals an explicit chunk's content, the appended contents are pairwise
distinct, and every vector chunk whose content is not among the explicit
contents has its content represented in the output. -/
theorem c3_merge_dedup (ec oc : List Document) :
    ∃ t, mergeChunks (ec.map Document.pageContent) ec oc = ec ++ t ∧
      t.Sublist oc ∧
      (∀ d ∈ t, d.pageContent ∉ ec.map Document.pageContent) ∧
      (t.map Document.pageContent).Nodup ∧
      (∀ d ∈ oc, d.pageContent ∈ ec.map Document.pageContent ∨
        d.pageContent ∈ t.map Document.pageContent) :=
  mergeChunks_spec oc (ec.map Document.pageContent) ec

/-- C10: the returned sequence is an order-preserving subsequence of the
explicit chunks followed by the vector chunks. -/
theorem c10_sublist (env : Env) (opts : RetrievalOpts) (query : String)
    (noHyde : Bool) (ec oc res : List Document) (ev : List Event)
    (hec : getExplicitChunks env (env.extractNoteTitles query) = .ok ec)
    (hoc : getOramaChunks env opts (hydeQuery env query noHyde).1 = (.ok oc, ev))
    (hres : (getRelevantDocuments env opts query noHyde).1 = .ok res) :
    res.Sublist (ec ++ oc) := by
  unfold getRelevantDocuments at hres
  rw [hec, hoc] at hres
  simp at hres
  obtain ⟨t, ht, hsub, -, -, -⟩ := mergeChunks_spec oc (ec.map Document.pageContent) ec
  rw [← hres, ht]
  exact ((ec ++ t).take_sublist opts.maxK).trans (hsub.append_left ec)

/-- Witness for C10 at the minimal environment. -/
theorem c10_sublist_witness :
    List.Sublist [hitToDoc (mkHit "v1" "pv")] ([] ++ [hitToDoc (mkHit "v1" "pv")]) :=
  c10_sublist envMini ⟨0, 5⟩ "q" true [] [hitToDoc (mkHit "v1" "pv")]
    [hitToDoc (mkHit "v1" "pv")] [Event.embedCall "q"] rfl rfl rfl

/-- The vector-search step always records exactly one embedding call, with
the query string it was given. -/
theorem getOramaChunks_trace (env : Env) (opts : RetrievalOpts) (q : String) :
    (getOramaChunks env opts q).2 = [Event.embedCall q] := by
  unfold getOramaChunks
  cases h : env.embedQuery q <;> simp

/-- An environment whose embedding collaborator always throws. -/
def envEmbedFail : Env :=
  { extractNoteTitles := fun _ => []
    getNoteFileFromTitle := fun _ => .ok none
    getDocsByPath := fun _ => .ok none
    llmInvoke := fun _ => .error "llm down"
    embedQuery := fun _ => .error "embed down"
    search := fun _ _ _ => [] }

/-- C5: if the language-model call throws or its response lacks a content
field, `rewriteQuery` returns the original query unchanged, and `retrieve`
with rewriting enabled returns the same result as with rewriting bypassed:
the rewrite failure is never propagated. -/
theorem c5_rewrite_fallback (env : Env) (opts : RetrievalOpts) (query : String)
    (h : llmRewriteFails env query) :
    rewriteQuery env query = (query, [Event.llmCall (promptTemplate query)]) ∧
    (getRelevantDocuments env opts query false).1 =
      (getRelevantDocuments env opts query true).1 := by
  have hrw : rewriteQuery env query = (query, [Event.llmCall (promptTemplate query)]) := by
    unfold llmRewriteFails at h
    unfold rewriteQuery
    cases hl : env.llmInvoke (promptTemplate query) with
    | error e => rfl
    | ok r =>
      cases r with
      | none => rfl
      | some r0 =>
        rw [hl] at h
        simp at h
        simp [h]
  refine ⟨hrw, ?_⟩
  have h1 : (hydeQuery env query false).1 = query := by simp [hydeQuery, hrw]
  unfold getRelevantDocuments
  rw [h1]
  cases getExplicitChunks env (env.extractNoteTitles query) with
  | error e => rfl
  | ok ec =>
    simp only [hydeQuery, if_true]
    rcases getOramaChunks env opts query with ⟨r, ev⟩
    cases r <;> rfl

/-- Witness for C5 at the minimal environment, whose language model throws. -/
theorem c5_rewrite_fallback_witness :
    rewriteQuery envMini "q" = ("q", [Event.llmCall (promptTemplate "q")]) ∧
    (getRelevantDocuments envMini ⟨0, 5⟩ "q" false).1 =
      (getRelevantDocuments envMini ⟨0, 5⟩ "q" true).1 :=
  c5_rewrite_fallback envMini ⟨0, 5⟩ "q" trivial

/-- C6: if the embedding collaborator throws, the failure propagates out of
`retrieve` (never swallowed, never an `ok` result), and the trace records the
embedding call with the query text as diagnostic context. -/
theorem c6_embed_failure_propagates (env : Env) (opts : RetrievalOpts)
    (query : String) (noHyde : Bool) (ec : List Document) (e : Err)
    (hec : getExplicitChunks env (env.extractNoteTitles query) = .ok ec)
    (hembed : ∀ s, env.embedQuery s = .error e) :
    (getRelevantDocuments env opts query noHyde).1 = .error e ∧
    (getRelevantDocuments env opts query noHyde).2 =
      (hydeQuery env query noHyde).2 ++
        [Event.embedCall (hydeQuery env query noHyde).1] ∧
    ∀ res, (getRelevantDocuments env opts query noHyde).1 ≠ .ok res := by
  have hoc : getOramaChunks env opts (hydeQuery env query noHyde).1 =
      (.error e, [Event.embedCall (hydeQuery env query noHyde).1]) := by
    unfold getOramaChunks
    rw [hembed]
  refine ⟨?_, ?_, ?_⟩ <;> simp [getRelevantDocuments, hec, hoc]

/-- Witness for C6 at an environment whose embedding always throws. -/
theorem c6_embed_failure_propagates_witness :
    (getRelevantDocuments envEmbedFail ⟨0, 5⟩ "q" true).1 =
      Except.error "embed down" :=
  (c6_embed_failure_propagates envEmbedFail ⟨0, 5⟩ "q" true [] "embed down" rfl
    (fun _ => rfl)).1

/-- C7: in bypass mode the collaborator-call trace is exactly one embedding
call carrying the original query string: no language-model call occurs and
the vector search is invoked with the query unmodified. -/
theorem c7_bypass_no_llm (env : Env) (opts : RetrievalOpts) (query : String)
    (ec : List Document)
    (hec : getExplicitChunks env (env.extractNoteTitles query) = .ok ec) :
    (getRelevantDocuments env opts query true).2 = [Event.embedCall query] ∧
    ∀ p, Event.llmCall p ∉ (getRelevantDocuments env opts query true).2 := by
  have h2 : (getRelevantDocuments env opts query true).2 = [Event.embedCall query] := by
    rcases hoc : getOramaChunks env opts query with ⟨r, ev⟩
    have hev : ev = [Event.embedCall query] := by
      have ht := getOramaChunks_trace env opts query
      rw [hoc] at ht
      simpa using ht
    cases r with
    | error e => simp [getRelevantDocuments, hec, hydeQuery, hoc, hev]
    | ok oc => simp [getRelevantDocuments, hec, hydeQuery, hoc, hev]
  refine ⟨h2, ?_⟩
  intro p
  rw [h2]
  simp

/-- Witness for C7 at the minimal environment. -/
theorem c7_bypass_no_llm_witness :
    (getRelevantDocuments envMini ⟨0, 5⟩ "q" true).2 = [Event.embedCall "q"] :=
  (c7_bypass_no_llm envMini ⟨0, 5⟩ "q" [] rfl).1

/-- An environment with two titles: "B" resolves to a path owning two
passages, "A" to a path owning one. -/
def envC1 : Env :=
  { extractNoteTitles := fun _ => ["B", "A"]
    getNoteFileFromTitle := fun t =>
      .ok (if t = "A" then some "a" else if t = "B" then some "b" else none)
    getDocsByPath := fun p =>
      .ok (if p = "a" then some [mkHit "ca" "a"]
        else if p = "b" then some [mkHit "cb1" "b", mkHit "cb2" "b"] else none)
    llmInvoke := fun _ => .error "llm down"
    embedQuery := fun _ => .ok [1]
    search := fun _ _ _ => [] }

/-- C1 counterexample: title "A" resolves to one passage and `maxK = 2 ≥ 1`,
yet A's passage is missing from the result, because the two passages of the
earlier title "B" exhaust the budget.  `maxK ≥ |P|` for the one title does
not guarantee inclusion of P. -/
theorem c1_counterexample :
    envC1.extractNoteTitles "q" = ["B", "A"] ∧
    envC1.getNoteFileFromTitle "A" = .ok (some "a") ∧
    envC1.getDocsByPath "a" = .ok (some [mkHit "ca" "a"]) ∧
    [mkHit "ca" "a"].length ≤ 2 ∧
    (getRelevantDocuments envC1 ⟨0, 2⟩ "q" true).1 =
      .ok [hitToDoc (mkHit "cb1" "b"), hitToDoc (mkHit "cb2" "b")] ∧
    hitToDoc (mkHit "ca" "a") ∉
      [hitToDoc (mkHit "cb1" "b"), hitToDoc (mkHit "cb2" "b")] := by
  refine ⟨rfl, rfl, rfl, by decide, rfl, by decide⟩

/-- C1 amended: every passage of an explicitly referenced document is among
the explicit chunks; whenever `maxK` is at least the TOTAL number of explicit
chunks, the result is the explicit chunks followed by a subsequence of the
vector chunks (so every passage of P precedes every vector-only passage);
and whenever the explicit chunks alone exceed `maxK`, the result is exactly
the first `maxK` explicit chunks in fetch order with no vector chunk. -/
theorem c1_explicit_precedence (env : Env) (opts : RetrievalOpts) (query : String)
    (noHyde : Bool) (l1 l2 : List String) (A : String) (noteFile : Option String)
    (hitsA : List Hit) (ec res : List Document)
    (hx : env.extractNoteTitles query = l1 ++ A :: l2)
    (hr : env.getNoteFileFromTitle A = .ok noteFile)
    (hd : env.getDocsByPath (noteFile.getD "") = .ok (some hitsA))
    (hec : getExplicitChunks env (env.extractNoteTitles query) = .ok ec)
    (hres : (getRelevantDocuments env opts query noHyde).1 = .ok res) :
    (∀ h ∈ hitsA, hitToDoc h ∈ ec) ∧
    (ec.length ≤ opts.maxK →
      ∃ oc ev t, getOramaChunks env opts (hydeQuery env query noHyde).1 = (.ok oc, ev) ∧
        res = ec ++ t ∧ t.Sublist oc) ∧
    (opts.maxK < ec.length → res = ec.take opts.maxK) := by
  rw [hx] at hec
  rw [getExplicitChunks_append] at hec
  have hmem : ∀ h ∈ hitsA, hitToDoc h ∈ ec := by
    cases h1 : getExplicitChunks env l1 with
    | error e => rw [h1] at hec; simp at hec
    | ok c1 =>
      rw [h1] at hec
      cases h2 : getExplicitChunks env (A :: l2) with
      | error e => rw [h2] at hec; simp at hec
      | ok cr =>
        rw [h2] at hec
        simp at hec
        cases h3 : getExplicitChunks env l2 with
        | error e => simp [getExplicitChunks, hr, hd, h3] at h2
        | ok c2 =>
          simp [getExplicitChunks, hr, hd, h3] at h2
          intro h hh
          rw [← hec, ← h2]
          exact List.mem_append_right c1
            (List.mem_append_left _ (List.mem_map_of_mem hitToDoc hh))
  have hmain : (ec.length ≤ opts.maxK →
      ∃ oc ev t, getOramaChunks env opts (hydeQuery env query noHyde).1 = (.ok oc, ev) ∧
        res = ec ++ t ∧ t.Sublist oc) ∧
      (opts.maxK < ec.length → res = ec.take opts.maxK) := by
    unfold getRelevantDocuments at hres
    rw [hx, getExplicitChunks_append] at hres
    cases h1 : getExplicitChunks env l1 with
    | error e => rw [h1] at hres; simp at hres
    | ok c1 =>
      rw [h1] at hres
      cases h2 : getExplicitChunks env (A :: l2) with
      | error e => rw [h2] at hres; simp at hres
      | ok cr =>
        rw [h2] at hres
        have hec2 : ec = c1 ++ cr := by
          rw [h1, h2] at hec; simpa using hec.symm
        rcases hoc : getOramaChunks env opts (hydeQuery env query noHyde).1 with ⟨r, ev⟩
        cases r with
        | error e => rw [hoc] at hres; simp at hres
        | ok oc =>
          rw [hoc] at hres
          simp at hres
          obtain ⟨t0, ht0, hsub, -, -, -⟩ :=
            mergeChunks_spec oc ((c1 ++ cr).map Document.pageContent) (c1 ++ cr)
          rw [List.map_append] at ht0
          rw [ht0] at hres
          constructor
          · intro hk
            refine ⟨oc, ev, t0.take (opts.maxK - ec.length), rfl, ?_, ?_⟩
            · rw [← hres, hec2, List.take_append_eq_append_take,
                List.take_of_length_le (hec2 ▸ hk)]
            · exact (t0.take_sublist _).trans hsub
          · intro hk
            rw [← hres, hec2, List.take_append_eq_append_take,
              Nat.sub_eq_zero_of_le (Nat.le_of_lt (hec2 ▸ hk))]
            simp
  exact ⟨hmem, hmain.1, hmain.2⟩

/-- Witness for the amended C1: with `maxK = 5` the single passage of "A" is
among the explicit chunks of the result. -/
theorem c1_explicit_precedence_witness :
    hitToDoc (mkHit "ca" "a") ∈
      [hitToDoc (mkHit "cb1" "b"), hitToDoc (mkHit "cb2" "b"),
        hitToDoc (mkHit "ca" "a")] :=
  (c1_explicit_precedence envC1 ⟨0, 5⟩ "q" true ["B"] [] "A" (some "a")
    [mkHit "ca" "a"]
    [hitToDoc (mkHit "cb1" "b"), hitToDoc (mkHit "cb2" "b"), hitToDoc (mkHit "ca" "a")]
    [hitToDoc (mkHit "cb1" "b"), hitToDoc (mkHit "cb2" "b"), hitToDoc (mkHit "ca" "a")]
    rfl rfl rfl rfl rfl).1 (mkHit "ca" "a") (by simp)

/-- An environment where resolving title "B" throws while title "A"
resolves to a path owning one passage. -/
def envC4 : Env :=
  { extractNoteTitles := fun _ => ["B", "A"]
    getNoteFileFromTitle := fun t =>
      if t = "B" then .error "resolve failed"
      else .ok (if t = "A" then some "a" else none)
    getDocsByPath := fun p => .ok (if p = "a" then some [mkHit "ca" "a"] else none)
    llmInvoke := fun _ => .error "llm down"
    embedQuery := fun _ => .ok [1]
    search := fun _ _ _ => [] }

/-- C4 counterexample: resolution of title "B" throws; title "A" resolves and
owns a passage; the whole retrieval aborts with the error instead of
completing with A's contribution. -/
theorem c4_counterexample :
    envC4.extractNoteTitles "q" = ["B", "A"] ∧
    envC4.getNoteFileFromTitle "B" = .error "resolve failed" ∧
    envC4.getNoteFileFromTitle "A" = .ok (some "a") ∧
    envC4.getDocsByPath "a" = .ok (some [mkHit "ca" "a"]) ∧
    getRelevantDocuments envC4 ⟨0, 5⟩ "q" true = (.error "resolve failed", []) :=
  ⟨rfl, rfl, rfl, rfl, rfl⟩

/-- C4 amended: a failure while fetching passages for one title (resolution
or index lookup throwing), the earlier titles having fetched successfully,
aborts the whole retrieval: the error propagates out of `retrieve`, no
passages are returned, and no model or embedding call is made. -/
theorem c4_title_failure_aborts (env : Env) (opts : RetrievalOpts) (query : String)
    (noHyde : Bool) (l1 l2 : List String) (t : String) (c1 : List Document) (e : Err)
    (hx : env.extractNoteTitles query = l1 ++ t :: l2)
    (h1 : getExplicitChunks env l1 = .ok c1)
    (hf : titleFetchFails env t e) :
    getRelevantDocuments env opts query noHyde = (.error e, []) := by
  have ht : getExplicitChunks env (t :: l2) = .error e := by
    unfold titleFetchFails at hf
    cases hr : env.getNoteFileFromTitle t with
    | error e0 =>
      rw [hr] at hf
      simp at hf
      simp [getExplicitChunks, hr, hf]
    | ok noteFile =>
      rw [hr] at hf
      simp at hf
      simp [getExplicitChunks, hr, hf]
  have hall : getExplicitChunks env (env.extractNoteTitles query) = .error e := by
    rw [hx, getExplicitChunks_append, h1, ht]
  simp [getRelevantDocuments, hall]

/-- Witness for the amended C4 with the failing title first in the list. -/
theorem c4_title_failure_aborts_witness :
    getRelevantDocuments envC4 ⟨0, 7⟩ "qq" true = (.error "resolve failed", []) :=
  c4_title_failure_aborts envC4 ⟨0, 7⟩ "qq" true [] ["A"] "B" [] "resolve failed"
    rfl rfl rfl

/-- An environment where the same title is extracted twice, so its single
passage is fetched twice. -/
def envC8 : Env :=
  { extractNoteTitles := fun _ => ["A", "A"]
    getNoteFileFromTitle := fun t => .ok (if t = "A" then some "a" else none)
    getDocsByPath := fun p => .ok (if p = "a" then some [mkHit "ca" "a"] else none)
    llmInvoke := fun _ => .error "llm down"
    embedQuery := fun _ => .ok [1]
    search := fun _ _ _ => [] }

/-- C8 counterexample: a title mentioned twice yields two explicit chunks of
identical content, and both appear in the result: the returned sequence is
not content-deduplicated across explicit chunks. -/
theorem c8_counterexample :
    (getRelevantDocuments envC8 ⟨0, 5⟩ "q" true).1 =
      .ok [hitToDoc (mkHit "ca" "a"), hitToDoc (mkHit "ca" "a")] ∧
    ¬ (List.map Document.pageContent
        [hitToDoc (mkHit "ca" "a"), hitToDoc (mkHit "ca" "a")]).Nodup :=
  ⟨rfl, by decide⟩

/-- C8 amended: the result is content-deduplicated provided the explicit
chunks themselves have pairwise-distinct contents; vector chunks are always
deduplicated against every already-included chunk, but duplicate contents
among the explicit chunks are retained. -/
theorem c8_dedup_conditional (env : Env) (opts : RetrievalOpts) (query : String)
    (noHyde : Bool) (ec res : List Document)
    (hec : getExplicitChunks env (env.extractNoteTitles query) = .ok ec)
    (hnd : (ec.map Document.pageContent).Nodup)
    (hres : (getRelevantDocuments env opts query noHyde).1 = .ok res) :
    (res.map Document.pageContent).Nodup := by
  unfold getRelevantDocuments at hres
  rw [hec] at hres
  rcases hoc : getOramaChunks env opts (hydeQuery env query noHyde).1 with ⟨r, ev⟩
  cases r with
  | error e => rw [hoc] at hres; simp at hres
  | ok oc =>
    rw [hoc] at hres
    simp at hres
    obtain ⟨t, ht, hsub, havoid, hndt, -⟩ :=
      mergeChunks_spec oc (ec.map Document.pageContent) ec
    rw [ht] at hres
    have hfull : ((ec ++ t).map Document.pageContent).Nodup := by
      rw [List.map_append]
      refine List.Nodup.append hnd hndt ?_
      intro a ha1 ha2
      obtain ⟨d, hd, hde⟩ := List.mem_map.mp ha2
      exact havoid d hd (hde ▸ ha1)
    have hsl : (res.map Document.pageContent).Sublist
        ((ec ++ t).map Document.pageContent) := by
      rw [← hres]
      exact ((ec ++ t).take_sublist opts.maxK).map Document.pageContent
    exact List.Nodup.sublist hsl hfull

/-- Witness for the amended C8 at the minimal environment. -/
theorem c8_dedup_conditional_witness :
    (List.map Document.pageContent [hitToDoc (mkHit "v1" "pv")]).Nodup :=
  c8_dedup_conditional envMini ⟨0, 5⟩ "q" true [] [hitToDoc (mkHit "v1" "pv")]
    rfl (by simp) rfl

/-- An environment with a single unresolvable title. -/
def envC9 : Env :=
  { extractNoteTitles := fun _ => ["ghost"]
    getNoteFileFromTitle := fun _ => .ok none
    getDocsByPath := fun _ => .ok none
    llmInvoke := fun _ => .error "llm down"
    embedQuery := fun _ => .ok [1]
    search := fun _ _ _ => [mkHit "v1" "pv"] }

/-- C9: an extracted title that resolves to no document contributes no
passages and causes no error: retrieval behaves exactly as if the title had
not been extracted (given that the index lookup on the empty path that the
code still performs yields nothing). -/
theorem c9_unresolved_title_skipped (env : Env) (opts : RetrievalOpts)
    (query : String) (noHyde : Bool) (l1 l2 : List String) (t : String)
    (hx : env.extractNoteTitles query = l1 ++ t :: l2)
    (hr : env.getNoteFileFromTitle t = .ok none)
    (hd : env.getDocsByPath "" = .ok none) :
    getRelevantDocuments env opts query noHyde =
      getRelevantDocuments
        { env with extractNoteTitles :=
            fun s => if s = query then l1 ++ l2 else env.extractNoteTitles s }
        opts query noHyde := by
  have ht : getExplicitChunks env (t :: l2) = getExplicitChunks env l2 := by
    cases h : getExplicitChunks env l2 <;> simp [getExplicitChunks, hr, hd, h]
  have hskip : getExplicitChunks env (env.extractNoteTitles query) =
      getExplicitChunks env (l1 ++ l2) := by
    rw [hx, getExplicitChunks_append, ht, getExplicitChunks_append]
  set env' : Env :=
    { env with extractNoteTitles :=
        fun s => if s = query then l1 ++ l2 else env.extractNoteTitles s } with henv
  have h1 : env'.extractNoteTitles query = l1 ++ l2 := by simp [henv]
  have h2 : getExplicitChunks env' (l1 ++ l2) = getExplicitChunks env (l1 ++ l2) :=
    getExplicitChunks_congr env env' rfl rfl _
  have h3 : hydeQuery env' query noHyde = hydeQuery env query noHyde := rfl
  have h4 : getOramaChunks env' opts (hydeQuery env query noHyde).1 =
      getOramaChunks env opts (hydeQuery env query noHyde).1 := rfl
  unfold getRelevantDocuments
  rw [hskip, h1, h2, h3, h4]

/-- Witness for C9 at a concrete environment with one ghost title. -/
theorem c9_unresolved_title_skipped_witness :
    getRelevantDocuments envC9 ⟨0, 5⟩ "q" true =
      getRelevantDocuments
        { envC9 with extractNoteTitles :=
            fun s => if s = "q" then [] ++ [] else envC9.extractNoteTitles s }
        ⟨0, 5⟩ "q" true :=
  c9_unresolved_title_skipped envC9 ⟨0, 5⟩ "q" true [] [] "ghost" rfl rfl rfl

end HybridRetriever
